import Mathlib

/-!
Shallow embedding of the dependency-graph core of `src/graph.rs`
(`DepGraph`, its builder API and its finalization pipeline), together
with theorems settling the specification claims about it.

Conventions of the embedding:
* `Vec<T>` becomes `List T`; `usize` becomes `Nat` (all indices are bounded
  by list lengths, far below any machine-word wraparound).
* A Rust operation that can panic (out-of-bounds indexing, `unwrap`) is
  modelled in `Option`, with `none` standing for the panic.
* The two source loops that repeatedly remove one element and restart
  (`remove_orphans`, `remove_self_pointing`) are modelled by structural
  recursion on an explicit fuel argument; the callers pass fuel that
  provably exceeds the number of iterations the source loop can make
  (each iteration removes one node resp. one edge), so the fuel-exhausted
  branch is unreachable there.
* `ResolvedDep`, `DepKind` and `Config` live in `dep.rs` / `config.rs`,
  which are not among the given sources; they are modelled from the spec
  where marked.
-/

set_option maxRecDepth 8000

namespace CargoGraph

/-- Modelled from the spec: the dependency-kind enumeration (`DepKind` lives
in `dep.rs`, which is not among the given sources): Build, Dev, Optional and
Normal. -/
inductive DepKind where
  | Build
  | Dev
  | Optional
  | Normal
  deriving DecidableEq, Repr

/-- Modelled from the spec: a resolved dependency (`ResolvedDep`, from
`dep.rs`, not among the given sources) carries a name, a version and a
dependency kind; lookup equality is on the (name, version) pair. -/
structure ResolvedDep where
  name : String
  ver : String
  kind : DepKind
  deriving DecidableEq, Repr

/-- Modelled from the spec: `ResolvedDep::new` (`dep.rs`) builds a node from
a name and a version; the kind stays Normal until the external resolver
classifies it. -/
def ResolvedDep.new (name ver : String) : ResolvedDep :=
  { name := name, ver := ver, kind := DepKind.Normal }

/-- Modelled from the spec: the rendering configuration (`config.rs`, not
among the given sources) supplies the three literal label-text fragments
that `Ed::label` reads (`cfg.build_lines`, `cfg.dev_lines`,
`cfg.optional_lines`). -/
structure Config where
  build_lines : String
  dev_lines : String
  optional_lines : String
  deriving DecidableEq, Repr

/-- An edge between node slots: `pub struct Ed(pub Nd, pub Nd)` with
`Nd = usize` (`graph.rs` lines 9-12). `fst` is the parent slot, `snd` the
child slot. -/
structure Ed where
  fst : Nat
  snd : Nat
  deriving DecidableEq, Repr

/-- The label text that `Ed::label` (`graph.rs` lines 15-32) writes for a
given (parent kind, child kind) pair.  The source fetches the two kinds via
`dg.get(..).unwrap()` and matches on the pair; the per-arm strings are
reproduced exactly (including the trailing newline of `writeln!`). -/
def edLabelKinds (cfg : Config) (parent child : DepKind) : String :=
  match parent, child with
  | DepKind.Build, DepKind.Build => "[label=\"\"" ++ cfg.build_lines ++ "];\n"
  | DepKind.Build, DepKind.Dev => "[label=\"\"" ++ cfg.dev_lines ++ "];\n"
  | DepKind.Build, DepKind.Optional => "[label=\"\"" ++ cfg.optional_lines ++ "];\n"
  | DepKind.Optional, DepKind.Build => "[label=\"\"" ++ cfg.optional_lines ++ "];\n"
  | DepKind.Optional, DepKind.Dev => "[label=\"\"" ++ cfg.optional_lines ++ "];\n"
  | DepKind.Optional, DepKind.Optional => "[label=\"\"" ++ cfg.optional_lines ++ "];\n"
  | DepKind.Dev, DepKind.Build => "[label=\"\"" ++ cfg.dev_lines ++ "];\n"
  | DepKind.Dev, DepKind.Dev => "[label=\"\"" ++ cfg.dev_lines ++ "];\n"
  | DepKind.Dev, DepKind.Optional => "[label=\"\"" ++ cfg.dev_lines ++ "];\n"
  | _, _ => "[label=\"\"];\n"

/-- The `Display` instance of `Ed` (`graph.rs` lines 35-40): `N{} -> N{}`. -/
def edDisplay (e : Ed) : String :=
  "N" ++ toString e.fst ++ " -> N" ++ toString e.snd

/-- Modelled from the spec: `ResolvedDep::label` (`dep.rs`, not among the
given sources) writes the node's declaration-line label to the sink; the
spec fixes only that each node line carries a label derived from the node,
so we render name and version.  Only its totality matters for the claims. -/
def ResolvedDep.label (_cfg : Config) (d : ResolvedDep) : String :=
  "[label=\"" ++ d.name ++ " v" ++ d.ver ++ "\"];\n"

/-- The graph (`graph.rs` lines 42-49): an ordered node sequence plus an edge
collection.  The borrowed `cfg` field is modelled as an explicit parameter of
the operations that read it. -/
structure DepGraph where
  nodes : List ResolvedDep
  edges : List Ed
  deriving DecidableEq, Repr

/-- `DepGraph::get` (`graph.rs` lines 66-71): `Some(&nodes[id])` when
`id < nodes.len()`, otherwise `None`. -/
def DepGraph.get (g : DepGraph) (id : Nat) : Option ResolvedDep :=
  if id < g.nodes.length then g.nodes[id]? else none

/-- The enumerating loop index used by the source's `iter().enumerate()`:
pairs each element with its position, starting from `i`. -/
def enumAux {α : Type} : Nat → List α → List (Nat × α)
  | _, [] => []
  | i, a :: t => (i, a) :: enumAux (i + 1) t

/-- First index at which `p` holds, `none` when it never does.  This is the
shape of the source's scan-and-break-at-first-hit loops. -/
def firstIdx {α : Type} (p : α → Bool) : List α → Option Nat
  | [] => none
  | a :: t => if p a then some 0 else (firstIdx p t).map (· + 1)

/-- The linear scan of `DepGraph::find` (`graph.rs` lines 199-206),
carrying the running index. -/
def findFrom : List ResolvedDep → Nat → String → String → Option Nat
  | [], _, _, _ => none
  | d :: t, i, name, ver =>
    if d.name == name && d.ver == ver then some i else findFrom t (i + 1) name ver

/-- `DepGraph::find` (`graph.rs` lines 199-206): first slot whose node
matches `(name, ver)`. -/
def DepGraph.find (g : DepGraph) (name ver : String) : Option Nat :=
  findFrom g.nodes 0 name ver

/-- `DepGraph::find_or_add` (`graph.rs` lines 208-214): the existing slot if
present, otherwise push a new node and return its slot (`nodes.len() - 1`
after the push, i.e. the old length). -/
def DepGraph.find_or_add (g : DepGraph) (name ver : String) : Nat × DepGraph :=
  match g.find name ver with
  | some i => (i, g)
  | none =>
    (g.nodes.length, { g with nodes := g.nodes ++ [ResolvedDep.new name ver] })

/-- `DepGraph::add_child` (`graph.rs` lines 60-64): resolve or create the
child, push the edge `(parent, child)`, return the child slot. -/
def DepGraph.add_child (g : DepGraph) (parent : Nat) (dep_name dep_ver : String) :
    Nat × DepGraph :=
  let r := g.find_or_add dep_name dep_ver
  (r.1, { r.2 with edges := r.2.edges ++ [{ fst := parent, snd := r.1 }] })

/-- Modelled from the spec: the external resolver records each discovered
dependency's kind on its node (`ResolvedDep` setters live in `dep.rs`,
not among the given sources); this updates the kind of the node at `slot`. -/
def setKindList : List ResolvedDep → Nat → DepKind → List ResolvedDep
  | [], _, _ => []
  | d :: t, 0, k => { d with kind := k } :: t
  | d :: t, Nat.succ i, k => d :: setKindList t i k

/-- Modelled from the spec: set the kind of the node at `slot` (see
`setKindList`). -/
def DepGraph.setKindAt (g : DepGraph) (slot : Nat) (k : DepKind) : DepGraph :=
  { g with nodes := setKindList g.nodes slot k }

/-- The endpoint transposition of `DepGraph::set_root` (`graph.rs` lines
184-195): `0` and `root_id` exchange, everything else is unchanged. -/
def swapIdx (root_id x : Nat) : Nat :=
  if x = 0 then root_id else if x = root_id then 0 else x

/-- `slice::swap(0, root_id)` on the node list: exchange the elements at two
(valid) positions. -/
def listSwap {α : Type} (l : List α) (i j : Nat) : List α :=
  match l[i]?, l[j]? with
  | some a, some b => (l.set i b).set j a
  | _, _ => l

/-- `DepGraph::set_root` (`graph.rs` lines 170-197): fail with `false` when
`(name, ver)` is absent; no-op success when it is already at slot 0;
otherwise swap the two nodes and transpose every edge endpoint. -/
def DepGraph.set_root (g : DepGraph) (name ver : String) : Bool × DepGraph :=
  match g.find name ver with
  | none => (false, g)
  | some root_id =>
    if root_id = 0 then (true, g)
    else
      (true,
        { nodes := listSwap g.nodes 0 root_id,
          edges := g.edges.map (fun e =>
            { fst := swapIdx root_id e.fst, snd := swapIdx root_id e.snd }) })

/-- `DepGraph::shift_edges_after_node` (`graph.rs` lines 84-102).  The source
loops `for c in id..self.nodes.len()` (the length AFTER the node removal),
collects an update `endpoint c ↦ c - 1` for every edge side equal to `c`,
and applies all updates afterwards.  Each endpoint equals at most one `c`,
and collected updates never re-trigger (they only decrement), so the net
effect is: an endpoint `v` with `id ≤ v < nodes.len()` becomes `v - 1`, any
other endpoint is left alone.  Note the upper bound is the new length, so an
endpoint equal to the old last slot is NOT shifted. -/
def DepGraph.shift_edges_after_node (g : DepGraph) (id : Nat) : DepGraph :=
  { g with edges := g.edges.map (fun e =>
      { fst := if id ≤ e.fst ∧ e.fst < g.nodes.length then e.fst - 1 else e.fst,
        snd := if id ≤ e.snd ∧ e.snd < g.nodes.length then e.snd - 1 else e.snd }) }

/-- `DepGraph::remove` (`graph.rs` lines 73-82): delete the node at `id`,
drop every edge touching `id`, then shift (see
`DepGraph.shift_edges_after_node`). -/
def DepGraph.remove (g : DepGraph) (id : Nat) : DepGraph :=
  DepGraph.shift_edges_after_node
    { nodes := g.nodes.eraseIdx id,
      edges := g.edges.filter (fun e => !(e.fst == id || e.snd == id)) }
    id

/-- The mark pass of `remove_orphans` (`graph.rs` lines 110-115):
`used[idr] = true` for every edge destination; `none` models the
out-of-bounds indexing panic. -/
def markFold : List Bool → List Ed → Option (List Bool)
  | u, [] => some u
  | u, e :: es =>
    if e.snd < u.length then markFold (u.set e.snd true) es else none

/-- The full mark pass: `used = vec![false; n]; used[0] = true` (a panic —
`none` — when `n = 0`), then mark every edge destination. -/
def markUsed (n : Nat) (edges : List Ed) : Option (List Bool) :=
  if n = 0 then none
  else markFold ((List.replicate n false).set 0 true) edges

/-- The in-loop removal of `remove_orphans` (`graph.rs` lines 121-133):
delete the node, retain only edges NOT originating from it, decrement every
remaining endpoint strictly greater than it.  (Unlike `DepGraph.remove`,
this one shifts correctly.) -/
def orphanRemove (g : DepGraph) (id : Nat) : DepGraph :=
  { nodes := g.nodes.eraseIdx id,
    edges := (g.edges.filter (fun e => !(e.fst == id))).map (fun e =>
      { fst := if id < e.fst then e.fst - 1 else e.fst,
        snd := if id < e.snd then e.snd - 1 else e.snd }) }

/-- The `loop` of `remove_orphans` (`graph.rs` lines 108-141): mark, remove
the first unused node and restart, stop when every node is marked.  Fuel
bounds the number of iterations; each iteration removes one node, so any
fuel exceeding the node count is enough (the callers pass such fuel). -/
def removeOrphansLoop : Nat → DepGraph → Option DepGraph
  | 0, _ => none
  | Nat.succ fuel, g =>
    match markUsed g.nodes.length g.edges with
    | none => none
    | some used =>
      match firstIdx (fun b => !b) used with
      | none => some g
      | some id => removeOrphansLoop fuel (orphanRemove g id)

/-- `DepGraph::remove_orphans` (`graph.rs` lines 104-142): first retain only
edges with both endpoints in bounds, then iterate mark-and-remove to the
fixpoint. -/
def DepGraph.remove_orphans (g : DepGraph) : Option DepGraph :=
  let len := g.nodes.length
  removeOrphansLoop (len + 1)
    { g with edges := g.edges.filter (fun e =>
        decide (e.fst < len) && decide (e.snd < len)) }

/-- The `loop` of `remove_self_pointing` (`graph.rs` lines 144-168): find the
first edge with equal endpoints, remove it, rescan; stop when none is found.
Fuel bounds the iterations; each one removes one edge. -/
def selfPointingLoop : Nat → List Ed → List Ed
  | 0, es => es
  | Nat.succ fuel, es =>
    match firstIdx (fun e => e.fst == e.snd) es with
    | none => es
    | some i => selfPointingLoop fuel (es.eraseIdx i)

/-- `DepGraph::remove_self_pointing` (`graph.rs` lines 144-168). -/
def DepGraph.remove_self_pointing (g : DepGraph) : DepGraph :=
  { g with edges := selfPointingLoop (g.edges.length + 1) g.edges }

/-- The total order on edges induced by the derived `Ord` of `Ed`
(lexicographic on the two slots), as used by `self.edges.sort()`. -/
def edLe (a b : Ed) : Bool :=
  decide (a.fst < b.fst) || (a.fst == b.fst && decide (a.snd ≤ b.snd))

/-- Sorted insertion for `sortEdges`. -/
def insertEd (e : Ed) : List Ed → List Ed
  | [] => [e]
  | f :: t => if edLe e f then e :: f :: t else f :: insertEd e t

/-- `self.edges.sort()` (`graph.rs` line 218).  `Vec::sort` returns THE
sorted permutation of the input; since the derived lexicographic order on
`Ed` is total and antisymmetric, that permutation is unique, so any sorting
algorithm — here insertion sort — yields the identical list. -/
def sortEdges (l : List Ed) : List Ed :=
  l.foldr insertEd []

/-- `self.edges.dedup()` (`graph.rs` line 219): collapse runs of consecutive
equal edges. -/
def dedupConsec : List Ed → List Ed
  | [] => []
  | [e] => [e]
  | e :: f :: t =>
    if e == f then dedupConsec (f :: t) else e :: dedupConsec (f :: t)

/-- `pat.isPrefixOf` scanned along every suffix: Rust's
`str::contains(pattern)` on the underlying character lists. -/
def containsSub (pat : List Char) : List Char → Bool
  | [] => pat.isPrefixOf []
  | c :: t => pat.isPrefixOf (c :: t) || containsSub pat t

/-- `node.name.contains("proto_")` (`graph.rs` line 273). -/
def containsProto (s : String) : Bool :=
  containsSub "proto_".data s.data

/-- The hardcoded allowlist `impt` of `render_to` (`graph.rs` lines
224-271), reproduced verbatim. -/
def imptList : List String :=
  ["app_interface", "async", "backoff", "bitslab", "canopy", "canopy_check",
   "casefold", "common", "config", "cyclotron", "database", "dbx-collections",
   "debug_enum_int_derive", "diff", "disk_usage_manager", "dynamic_loader",
   "environment", "event_queue", "events", "events_derive", "fileid_manager",
   "filename", "fs", "heirloom", "hello_world", "http2_connection",
   "intent_manager", "mount_table", "network", "ntdll", "nucleus_c_api",
   "nucleus_engine", "pb_service", "planning", "pre_local", "prost",
   "protocol", "resync", "rpc_shim", "sawmill", "scripts", "startup",
   "testing", "transport_adapter", "tree", "trinity"]

/-- The per-node test of the `filter_map` computing `unimpt_idxs`
(`graph.rs` lines 272-280): a node is unimportant when its name contains
`proto_`, or otherwise is not in the allowlist. -/
def unimportant (d : ResolvedDep) : Bool :=
  if containsProto d.name then true
  else if imptList.contains d.name then false
  else true

/-- `unimpt_idxs` (`graph.rs` lines 272-280): the indices of the unimportant
nodes, via `iter().enumerate().filter_map(..)`. -/
def unimptIdxs (nodes : List ResolvedDep) : List Nat :=
  (enumAux 0 nodes).filterMap (fun p =>
    if unimportant p.2 then some p.1 else none)

/-- The importance-filter removal loop of `render_to` (`graph.rs` lines
281-286): `for (which, idx) in unimpt_idxs.into_iter().enumerate()` calls
`self.remove(idx - which)` (the buggy `remove`, see
`DepGraph.shift_edges_after_node`). -/
def DepGraph.importance_filter (g : DepGraph) : DepGraph :=
  (enumAux 0 (unimptIdxs g.nodes)).foldl
    (fun acc p => acc.remove (p.2 - p.1)) g

/-- The edge-emission loop of `render_to` (`graph.rs` lines 294-297): for
each edge, write `\t{edge}` and then its label; `Ed::label` fetches both
endpoint nodes with `.unwrap()`, so a dangling endpoint is a panic
(`none`). -/
def edgeLines (cfg : Config) (g : DepGraph) : List Ed → Option (List String)
  | [] => some []
  | e :: es =>
    match g.get e.fst, g.get e.snd with
    | some p, some c =>
      (edgeLines cfg g es).map
        (fun rest => ("\t" ++ edDisplay e ++ edLabelKinds cfg p.kind c.kind) :: rest)
    | _, _ => none

/-- The emission part of `render_to` (`graph.rs` lines 289-298): header,
one line per node in slot order, one line per edge, footer. -/
def emit (g : DepGraph) (cfg : Config) : Option String :=
  match edgeLines cfg g g.edges with
  | none => none
  | some ls =>
    some ("digraph dependencies \x7b\n"
      ++ String.join ((enumAux 0 g.nodes).map
          (fun p => "\tN" ++ toString p.1 ++ ResolvedDep.label cfg p.2))
      ++ String.join ls
      ++ "\x7d\n")

/-- `DepGraph::render_to` (`graph.rs` lines 216-300): sort and dedup the
edges, prune orphans, drop self-loops, apply the importance filter unless
the `DONT_SKIP` environment variable is set (`dont_skip_set` models
`env::var("DONT_SKIP").is_ok()`), then emit.  `none` models a panic along
the way; on success the finalized graph is returned next to the emitted
text so theorems can observe the surviving nodes and edges (the source
consumes `self`). -/
def DepGraph.render_to (g : DepGraph) (cfg : Config) (dont_skip_set : Bool) :
    Option (DepGraph × String) :=
  let g1 : DepGraph := { g with edges := dedupConsec (sortEdges g.edges) }
  match g1.remove_orphans with
  | none => none
  | some g2 =>
    let g3 := g2.remove_self_pointing
    let g4 := if dont_skip_set then g3 else g3.importance_filter
    match emit g4 cfg with
    | none => none
    | some out => some (g4, out)

/-- Edges viewed as unordered structural relationships between nodes rather
than slot numbers: each edge becomes the pair of the nodes its endpoints
resolve to (via `DepGraph::get`). -/
def structuralEdges (g : DepGraph) : List (Option ResolvedDep × Option ResolvedDep) :=
  g.edges.map (fun e => (g.get e.fst, g.get e.snd))

/-- Both endpoints of every edge are valid node indices. -/
def edgesInBounds (g : DepGraph) : Prop :=
  ∀ e ∈ g.edges, e.fst < g.nodes.length ∧ e.snd < g.nodes.length

/-- A concrete configuration with three distinguishable fragments, for the
closed theorems below. -/
def cfg0 : Config :=
  { build_lines := "BB", dev_lines := "DD", optional_lines := "OO" }

/-- Failing input for the shift of `remove`: three nodes and the edge
`(0, 2)` to the last slot. -/
def gShift : DepGraph :=
  { nodes := [ResolvedDep.new "a" "1", ResolvedDep.new "b" "1", ResolvedDep.new "c" "1"],
    edges := [{ fst := 0, snd := 2 }] }

/-- Failing input for `render_to` with the importance filter enabled:
`common` and `tree` are allowlisted, `zzz` is not; edges from the root to
both others. -/
def gRender : DepGraph :=
  { nodes := [ResolvedDep.new "common" "1", ResolvedDep.new "zzz" "1",
              ResolvedDep.new "tree" "1"],
    edges := [{ fst := 0, snd := 1 }, { fst := 0, snd := 2 }] }

/-- A single unimportant root node: the importance filter removes slot 0. -/
def gNoRoot : DepGraph :=
  { nodes := [ResolvedDep.new "zzz" "1.0"], edges := [] }

/-- The build sequence of the spec's scenario: root A@1.0, child B@2.0
(Build), B's child C@3.0 (Dev), a duplicate A→B edge, and D@9.9 added via
`find_or_add` but never linked. -/
def scenarioGraph : DepGraph :=
  let g0 : DepGraph := { nodes := [], edges := [] }
  let g1 := (g0.find_or_add "A" "1.0").2
  let rB := g1.add_child 0 "B" "2.0"
  let g2 := rB.2.setKindAt rB.1 DepKind.Build
  let rC := g2.add_child rB.1 "C" "3.0"
  let g3 := rC.2.setKindAt rC.1 DepKind.Dev
  let g4 := (g3.add_child 0 "B" "2.0").2
  (g4.find_or_add "D" "9.9").2

/-- The nodes the scenario should retain after finalization. -/
def scenarioSurvivors : List ResolvedDep :=
  [{ name := "A", ver := "1.0", kind := DepKind.Normal },
   { name := "B", ver := "2.0", kind := DepKind.Build },
   { name := "C", ver := "3.0", kind := DepKind.Dev }]

/-- Witness graph for the orphan-pruning theorem: one root node, no edges. -/
def gOrphW : DepGraph :=
  { nodes := [ResolvedDep.new "r" "1"], edges := [] }

/-- Witness graph for the root-swap theorem: two nodes and one edge. -/
def gRootW : DepGraph :=
  { nodes := [{ name := "a", ver := "1", kind := DepKind.Normal },
              { name := "b", ver := "2", kind := DepKind.Build }],
    edges := [{ fst := 0, snd := 1 }] }

/-- The empty graph (buildable with `DepGraph::new` alone). -/
def gEmpty : DepGraph :=
  { nodes := [], edges := [] }

/-- The claim's version of the label table (C4), written from the claim's
own words for comparison with `edLabelKinds`: Build→Build takes the build
fragment; Build/Optional/Dev→Dev the dev fragment; Build/Optional/Dev→
Optional the optional fragment; every other pairing the empty label. -/
def claimedLabelTable (cfg : Config) (parent child : DepKind) : String :=
  match parent, child with
  | DepKind.Build, DepKind.Build => "[label=\"\"" ++ cfg.build_lines ++ "];\n"
  | DepKind.Build, DepKind.Dev => "[label=\"\"" ++ cfg.dev_lines ++ "];\n"
  | DepKind.Optional, DepKind.Dev => "[label=\"\"" ++ cfg.dev_lines ++ "];\n"
  | DepKind.Dev, DepKind.Dev => "[label=\"\"" ++ cfg.dev_lines ++ "];\n"
  | DepKind.Build, DepKind.Optional => "[label=\"\"" ++ cfg.optional_lines ++ "];\n"
  | DepKind.Optional, DepKind.Optional => "[label=\"\"" ++ cfg.optional_lines ++ "];\n"
  | DepKind.Dev, DepKind.Optional => "[label=\"\"" ++ cfg.optional_lines ++ "];\n"
  | _, _ => "[label=\"\"];\n"

/-- The corrected label table (amended C4), read off the source match: with
parent Build the child kind picks the fragment; parent Optional always takes
the optional fragment and parent Dev always the dev fragment (for non-Normal
children); every pairing involving Normal gets the empty label. -/
def amendedLabelTable (cfg : Config) (parent child : DepKind) : String :=
  match parent, child with
  | DepKind.Build, DepKind.Build => "[label=\"\"" ++ cfg.build_lines ++ "];\n"
  | DepKind.Build, DepKind.Dev => "[label=\"\"" ++ cfg.dev_lines ++ "];\n"
  | DepKind.Build, DepKind.Optional => "[label=\"\"" ++ cfg.optional_lines ++ "];\n"
  | DepKind.Optional, DepKind.Normal => "[label=\"\"];\n"
  | DepKind.Optional, _ => "[label=\"\"" ++ cfg.optional_lines ++ "];\n"
  | DepKind.Dev, DepKind.Normal => "[label=\"\"];\n"
  | DepKind.Dev, _ => "[label=\"\"" ++ cfg.dev_lines ++ "];\n"
  | _, _ => "[label=\"\"];\n"

/-! Helper lemmas. -/

theorem mem_of_getElemQ {α : Type} {l : List α} {i : Nat} {a : α}
    (h : l[i]? = some a) : a ∈ l := by
  obtain ⟨hlt, rfl⟩ := List.getElem?_eq_some.mp h
  exact List.getElem_mem ..

theorem filter_eraseIdx_eq {α : Type} {q : α → Bool} {l : List α} {i : Nat} {a : α}
    (h : l[i]? = some a) (hq : q a = false) :
    (l.eraseIdx i).filter q = l.filter q := by
  induction l generalizing i with
  | nil => cases h
  | cons x t ih =>
    cases i with
    | zero =>
      have hx : x = a := by simpa using h
      subst hx
      simp [List.eraseIdx, List.filter_cons, hq]
    | succ j =>
      have h' : t[j]? = some a := by simpa using h
      show (x :: t.eraseIdx j).filter q = (x :: t).filter q
      simp only [List.filter_cons, ih h']

theorem firstIdx_none {α : Type} {p : α → Bool} {l : List α}
    (h : firstIdx p l = none) : ∀ a ∈ l, p a = false := by
  induction l with
  | nil => intro a ha; cases ha
  | cons b t ih =>
    intro a ha
    cases hpb : p b with
    | true => rw [firstIdx, hpb] at h; simp at h
    | false =>
      rw [firstIdx, hpb] at h
      simp only [Bool.false_eq_true, if_false, Option.map_eq_none'] at h
      rcases List.mem_cons.mp ha with rfl | hat
      · exact hpb
      · exact ih h a hat

theorem firstIdx_some {α : Type} {p : α → Bool} {l : List α} {i : Nat}
    (h : firstIdx p l = some i) : ∃ a, l[i]? = some a ∧ p a = true := by
  induction l generalizing i with
  | nil => cases h
  | cons b t ih =>
    cases hpb : p b with
    | true =>
      rw [firstIdx, hpb] at h
      simp only [if_true, Option.some.injEq] at h
      subst h
      exact ⟨b, by simp, hpb⟩
    | false =>
      rw [firstIdx, hpb] at h
      simp only [Bool.false_eq_true, if_false, Option.map_eq_some'] at h
      obtain ⟨j, hj, rfl⟩ := h
      obtain ⟨a, ha, hpa⟩ := ih hj
      exact ⟨a, by simpa using ha, hpa⟩

theorem findFrom_some {l : List ResolvedDep} {i j : Nat} {n v : String}
    (h : findFrom l i n v = some j) :
    i ≤ j ∧ ∃ d, l[j - i]? = some d ∧ d.name = n ∧ d.ver = v := by
  induction l generalizing i with
  | nil => cases h
  | cons d t ih =>
    rw [findFrom] at h
    by_cases hd : (d.name == n && d.ver == v) = true
    · rw [if_pos hd] at h
      injection h with h
      subst h
      simp only [Bool.and_eq_true, beq_iff_eq] at hd
      exact ⟨Nat.le_refl _, d, by simp, hd.1, hd.2⟩
    · rw [if_neg hd] at h
      obtain ⟨hij, d', hd', hn, hv⟩ := ih h
      refine ⟨by omega, d', ?_, hn, hv⟩
      have hji : j - i = (j - (i + 1)) + 1 := by omega
      rw [hji]
      simpa using hd'

theorem findFrom_append_new {l : List ResolvedDep} {i : Nat} {n v : String}
    (h : findFrom l i n v = none) :
    findFrom (l ++ [ResolvedDep.new n v]) i n v = some (i + l.length) := by
  induction l generalizing i with
  | nil => simp [findFrom, ResolvedDep.new]
  | cons d t ih =>
    rw [findFrom] at h
    by_cases hd : (d.name == n && d.ver == v) = true
    · rw [if_pos hd] at h; cases h
    · rw [if_neg hd] at h
      show findFrom (d :: (t ++ [ResolvedDep.new n v])) i n v = _
      rw [findFrom, if_neg hd, ih h]
      congr 1
      simp [Nat.add_comm, Nat.add_assoc, Nat.add_left_comm]

theorem markFold_length {es : List Ed} : ∀ {u u' : List Bool},
    markFold u es = some u' → u'.length = u.length := by
  induction es with
  | nil => intro u u' h; cases h; rfl
  | cons e t ih =>
    intro u u' h
    rw [markFold] at h
    by_cases hb : e.snd < u.length
    · rw [if_pos hb] at h
      simpa [List.length_set] using ih h
    · rw [if_neg hb] at h; cases h

theorem markFold_some {es : List Ed} : ∀ {u : List Bool},
    (∀ e ∈ es, e.snd < u.length) → ∃ u', markFold u es = some u' := by
  induction es with
  | nil => intro u _; exact ⟨u, rfl⟩
  | cons e t ih =>
    intro u hb
    rw [markFold, if_pos (hb e (List.mem_cons_self ..))]
    exact ih (fun e' he' => by
      simpa [List.length_set] using hb e' (List.mem_cons_of_mem _ he'))

theorem markFold_true_iff {es : List Ed} : ∀ {u u' : List Bool},
    markFold u es = some u' →
    ∀ i, (u'[i]? = some true ↔ u[i]? = some true ∨ ∃ e ∈ es, e.snd = i) := by
  induction es with
  | nil => intro u u' h i; cases h; simp
  | cons e t ih =>
    intro u u' h i
    rw [markFold] at h
    by_cases hb : e.snd < u.length
    · rw [if_pos hb] at h
      rw [ih h i]
      constructor
      · rintro (hset | ⟨e', he', hsnd⟩)
        · by_cases hie : e.snd = i
          · exact Or.inr ⟨e, List.mem_cons_self .., hie⟩
          · left; rwa [List.getElem?_set_ne hie] at hset
        · exact Or.inr ⟨e', List.mem_cons_of_mem _ he', hsnd⟩
      · rintro (hu | ⟨e', he', hsnd⟩)
        · left
          by_cases hie : e.snd = i
          · subst hie; exact List.getElem?_set_eq_of_lt true hb
          · rwa [List.getElem?_set_ne hie]
        · rcases List.mem_cons.mp he' with rfl | ht
          · subst hsnd; exact Or.inl (List.getElem?_set_eq_of_lt true hb)
          · exact Or.inr ⟨e', ht, hsnd⟩
    · rw [if_neg hb] at h; cases h

theorem u0_true_iff {n i : Nat} (hn : 0 < n) :
    ((List.replicate n false).set 0 true)[i]? = some true ↔ i = 0 := by
  by_cases hi : i = 0
  · subst hi
    have h0 : 0 < (List.replicate n false).length := by
      simpa [List.length_replicate] using hn
    simp [List.getElem?_set_eq_of_lt true h0]
  · rw [List.getElem?_set_ne (fun h => hi h.symm), List.getElem?_replicate]
    split <;> simp [hi]

theorem markUsed_some_elim {n : Nat} {edges : List Ed} {used : List Bool}
    (h : markUsed n edges = some used) :
    0 < n ∧ used.length = n ∧
    (∀ i, used[i]? = some true ↔ i = 0 ∨ ∃ e ∈ edges, e.snd = i) := by
  rw [markUsed] at h
  by_cases hn : n = 0
  · rw [if_pos hn] at h; cases h
  · rw [if_neg hn] at h
    have hpos : 0 < n := Nat.pos_of_ne_zero hn
    have hlen : used.length = n := by
      simpa [List.length_set, List.length_replicate] using markFold_length h
    refine ⟨hpos, hlen, fun i => ?_⟩
    rw [markFold_true_iff h i, u0_true_iff hpos]

theorem markUsed_some {n : Nat} {edges : List Ed} (hn : 0 < n)
    (hb : ∀ e ∈ edges, e.snd < n) : ∃ used, markUsed n edges = some used := by
  rw [markUsed, if_neg (Nat.pos_iff_ne_zero.mp hn)]
  exact markFold_some (fun e he => by
    simpa [List.length_set, List.length_replicate] using hb e he)

theorem orphanRemove_length {g : DepGraph} {id : Nat} (h : id < g.nodes.length) :
    (orphanRemove g id).nodes.length = g.nodes.length - 1 := by
  show (g.nodes.eraseIdx id).length = _
  rw [List.length_eraseIdx]
  simp [h]

theorem orphanRemove_inBounds {g : DepGraph} {id : Nat}
    (hinb : edgesInBounds g) (hid : id < g.nodes.length)
    (hni : ∀ e ∈ g.edges, e.snd ≠ id) :
    edgesInBounds (orphanRemove g id) := by
  intro e' he'
  simp only [orphanRemove, List.mem_map, List.mem_filter] at he'
  obtain ⟨e, ⟨hmem, hfst⟩, rfl⟩ := he'
  have hb := hinb e hmem
  have hsnd := hni e hmem
  have hfst' : e.fst ≠ id := by simpa using hfst
  rw [orphanRemove_length hid]
  constructor <;> dsimp only <;> split <;> omega

theorem removeOrphansLoop_spec :
    ∀ (fuel : Nat) (g : DepGraph), edgesInBounds g → 0 < g.nodes.length →
    g.nodes.length ≤ fuel →
    ∃ g', removeOrphansLoop fuel g = some g'
      ∧ 0 < g'.nodes.length ∧ edgesInBounds g'
      ∧ (∀ i, i < g'.nodes.length → i = 0 ∨ ∃ e ∈ g'.edges, e.snd = i)
      ∧ removeOrphansLoop (g'.nodes.length + 1) g' = some g' := by
  intro fuel
  induction fuel with
  | zero => intro g _ h0 hle; omega
  | succ fuel ih =>
    intro g hinb h0 hle
    obtain ⟨used, hmk⟩ := markUsed_some h0 (fun e he => (hinb e he).2)
    obtain ⟨hn, hlen, hiff⟩ := markUsed_some_elim hmk
    cases hfi : firstIdx (fun b => !b) used with
    | none =>
      refine ⟨g, ?_, h0, hinb, ?_, ?_⟩
      · simp only [removeOrphansLoop, hmk, hfi]
      · intro i hi
        have hilen : i < used.length := by omega
        have hget : used[i]? = some used[i] := List.getElem?_eq_getElem hilen
        have hmem : used[i] ∈ used := List.getElem_mem ..
        have hfalse := firstIdx_none hfi _ hmem
        have htrue : used[i] = true := by
          cases hu : used[i] <;> simp [hu] at hfalse ⊢
        rw [htrue] at hget
        exact (hiff i).mp hget
      · simp only [removeOrphansLoop, hmk, hfi]
    | some id =>
      obtain ⟨b, hbget, hbp⟩ := firstIdx_some hfi
      have hbfalse : b = false := by simpa using hbp
      subst hbfalse
      have hidlt : id < g.nodes.length := by
        have := (List.getElem?_eq_some.mp hbget).1
        omega
      have hnosnd : ∀ e ∈ g.edges, e.snd ≠ id := by
        intro e he hsnd
        have : used[id]? = some true := (hiff id).mpr (Or.inr ⟨e, he, hsnd⟩)
        rw [hbget] at this
        cases this
      have hinb' := orphanRemove_inBounds hinb hidlt hnosnd
      have hid0 : id ≠ 0 := by
        intro hz
        subst hz
        have : used[0]? = some true := (hiff 0).mpr (Or.inl rfl)
        rw [hbget] at this
        cases this
      have hlen' := orphanRemove_length hidlt
      have h0' : 0 < (orphanRemove g id).nodes.length := by omega
      have hle' : (orphanRemove g id).nodes.length ≤ fuel := by omega
      obtain ⟨g', hrun, hpos, hb', hpost, hfix⟩ := ih (orphanRemove g id) hinb' h0' hle'
      refine ⟨g', ?_, hpos, hb', hpost, hfix⟩
      simp only [removeOrphansLoop, hmk, hfi, hrun]

theorem selfPointingLoop_eq_filter : ∀ {fuel : Nat} {es : List Ed},
    es.length < fuel →
    selfPointingLoop fuel es = es.filter (fun e => !(e.fst == e.snd)) := by
  intro fuel
  induction fuel with
  | zero => intro es h; omega
  | succ fuel ih =>
    intro es h
    cases hfi : firstIdx (fun e => e.fst == e.snd) es with
    | none =>
      have hall : ∀ e ∈ es, (!(e.fst == e.snd)) = true := by
        intro e he
        have := firstIdx_none hfi e he
        simp [this]
      simp only [selfPointingLoop, hfi]
      exact (List.filter_eq_self.mpr hall).symm
    | some i =>
      obtain ⟨e0, hget, hp⟩ := firstIdx_some hfi
      have hlt : i < es.length := (List.getElem?_eq_some.mp hget).1
      have hlen : (es.eraseIdx i).length < fuel := by
        rw [List.length_eraseIdx]
        simp only [hlt, if_pos]
        omega
      simp only [selfPointingLoop, hfi]
      rw [ih hlen, filter_eraseIdx_eq hget (by simp [hp])]

theorem enumAux_map {α β : Type} (f : α → β) :
    ∀ (i : Nat) (l : List α),
    enumAux i (l.map f) = (enumAux i l).map (fun p => (p.1, f p.2)) := by
  intro i l
  induction l generalizing i with
  | nil => rfl
  | cons a t ih => simp [enumAux, ih]

theorem enumAux_succ {α : Type} :
    ∀ (i : Nat) (l : List α),
    enumAux (i + 1) l = (enumAux i l).map (fun p => (p.1 + 1, p.2)) := by
  intro i l
  induction l generalizing i with
  | nil => rfl
  | cons a t ih => simp [enumAux, ih]

theorem unimptIdxs_cons (d : ResolvedDep) (t : List ResolvedDep) :
    unimptIdxs (d :: t) =
      if unimportant d then 0 :: (unimptIdxs t).map (· + 1)
      else (unimptIdxs t).map (· + 1) := by
  have htail : (enumAux 1 t).filterMap
      (fun p => if unimportant p.2 then some p.1 else none)
      = (unimptIdxs t).map (· + 1) := by
    rw [enumAux_succ 0 t, List.filterMap_map, unimptIdxs, List.map_filterMap]
    congr 1
    funext p
    by_cases hu : unimportant p.2 <;> simp [hu, Function.comp]
  rw [unimptIdxs]
  show List.filterMap _ ((0, d) :: enumAux 1 t) = _
  rw [List.filterMap_cons]
  by_cases hu : unimportant d <;> simp [hu, htail]

theorem unimptIdxs_enum_le (l : List ResolvedDep) :
    ∀ p ∈ enumAux 0 (unimptIdxs l), p.1 ≤ p.2 := by
  induction l with
  | nil => intro p hp; cases hp
  | cons d t ih =>
    intro p hp
    rw [unimptIdxs_cons] at hp
    by_cases hu : unimportant d
    · rw [if_pos hu] at hp
      rcases List.mem_cons.mp hp with rfl | hp'
      · exact Nat.le_refl 0
      · rw [enumAux_succ 0, enumAux_map] at hp'
        simp only [List.mem_map] at hp'
        obtain ⟨q, hq, rfl⟩ := hp'
        obtain ⟨r, hr, rfl⟩ := hq
        have := ih r hr
        omega
    · rw [if_neg hu] at hp
      rw [enumAux_map] at hp
      simp only [List.mem_map] at hp
      obtain ⟨q, hq, rfl⟩ := hp
      have := ih q hq
      omega

theorem foldl_erase_keep {α : Type} :
    ∀ (ps : List (Nat × Nat)) (cur : List α) (a : α),
    (∀ p ∈ ps, p.1 ≤ p.2) →
    List.foldl (fun l p => l.eraseIdx (p.2 - p.1)) (a :: cur)
      (ps.map (fun p => (p.1, p.2 + 1)))
    = a :: List.foldl (fun l p => l.eraseIdx (p.2 - p.1)) cur ps := by
  intro ps
  induction ps with
  | nil => intro cur a _; rfl
  | cons q t ih =>
    intro cur a hle
    have hq : q.1 ≤ q.2 := hle q (List.mem_cons_self ..)
    have hidx : q.2 + 1 - q.1 = (q.2 - q.1) + 1 := by omega
    simp only [List.map_cons, List.foldl_cons, hidx]
    show List.foldl _ ((a :: cur).eraseIdx ((q.2 - q.1) + 1)) _ = _
    have herase : (a :: cur).eraseIdx ((q.2 - q.1) + 1) = a :: cur.eraseIdx (q.2 - q.1) := rfl
    rw [herase]
    exact ih _ a (fun p hp => hle p (List.mem_cons_of_mem _ hp))

theorem foldl_erase_shift {α : Type} :
    ∀ (ps : List (Nat × Nat)) (cur : List α),
    List.foldl (fun l p => l.eraseIdx (p.2 - p.1)) cur
      (ps.map (fun p => (p.1 + 1, p.2 + 1)))
    = List.foldl (fun l p => l.eraseIdx (p.2 - p.1)) cur ps := by
  intro ps
  induction ps with
  | nil => intro cur; rfl
  | cons q t ih =>
    intro cur
    simp only [List.map_cons, List.foldl_cons, Nat.succ_sub_succ]
    exact ih _

theorem foldl_remove_nodes (ps : List (Nat × Nat)) :
    ∀ (g : DepGraph),
    ((ps.foldl (fun acc p => acc.remove (p.2 - p.1)) g)).nodes
    = ps.foldl (fun l p => l.eraseIdx (p.2 - p.1)) g.nodes := by
  induction ps with
  | nil => intro g; rfl
  | cons q t ih =>
    intro g
    simp only [List.foldl_cons]
    rw [ih]
    rfl

theorem foldl_erase_unimpt (l : List ResolvedDep) :
    List.foldl (fun cur p => cur.eraseIdx (p.2 - p.1)) l (enumAux 0 (unimptIdxs l))
    = l.filter (fun d => !(unimportant d)) := by
  induction l with
  | nil => rfl
  | cons d t ih =>
    rw [unimptIdxs_cons]
    by_cases hu : unimportant d
    · rw [if_pos hu]
      show List.foldl _ _ ((0, 0) :: enumAux 1 ((unimptIdxs t).map (· + 1))) = _
      rw [enumAux_succ 0, enumAux_map]
      simp only [List.foldl_cons, List.map_map]
      have h0 : (d :: t).eraseIdx (0 - 0) = t := rfl
      rw [h0]
      have hcomp : ((fun p => (p.1 + 1, p.2)) ∘ (fun p => ((p : Nat × Nat).1, p.2 + 1)))
          = (fun p => (p.1 + 1, p.2 + 1)) := by
        funext p; rfl
      rw [hcomp, foldl_erase_shift, ih]
      simp [List.filter_cons, hu]
    · rw [if_neg hu]
      rw [enumAux_map]
      rw [foldl_erase_keep (enumAux 0 (unimptIdxs t)) t d (unimptIdxs_enum_le t), ih]
      simp [List.filter_cons, hu]

theorem importance_filter_nodes (g : DepGraph) :
    (g.importance_filter).nodes = g.nodes.filter (fun d => !(unimportant d)) := by
  rw [DepGraph.importance_filter, foldl_remove_nodes, foldl_erase_unimpt]

theorem get_eq_getElem (g : DepGraph) (id : Nat) : g.get id = g.nodes[id]? := by
  rw [DepGraph.get]
  split
  · rfl
  · exact (List.getElem?_eq_none (by omega)).symm

theorem listSwap_get_swapIdx {l : List ResolvedDep} {r : Nat}
    (hr : r < l.length) (hne : r ≠ 0) :
    ∀ x, (listSwap l 0 r)[swapIdx r x]? = l[x]? := by
  have h0 : 0 < l.length := by omega
  have hd0 : l[0]? = some l[0] := List.getElem?_eq_getElem h0
  have hdr : l[r]? = some l[r] := List.getElem?_eq_getElem hr
  have hswap : listSwap l 0 r = (l.set 0 l[r]).set r l[0] := by
    rw [listSwap, hd0, hdr]
  intro x
  rw [hswap, swapIdx]
  by_cases hx0 : x = 0
  · subst hx0
    rw [if_pos rfl]
    rw [List.getElem?_set_eq_of_lt l[0] (by simpa [List.length_set] using hr)]
    exact hd0.symm
  · rw [if_neg hx0]
    by_cases hxr : x = r
    · subst hxr
      rw [if_pos rfl]
      rw [List.getElem?_set_ne hne, List.getElem?_set_eq_of_lt l[x] h0]
      exact hdr.symm
    · rw [if_neg hxr]
      rw [List.getElem?_set_ne (fun hh => hxr hh.symm),
        List.getElem?_set_ne (fun hh => hx0 hh.symm)]

/-! Claim theorems. -/

/-- Claim C1 (code bug): on the three-node graph `gShift` with the single
edge `(0, 2)`, `remove(1)` leaves the edge `(0, 2)` unshifted, so an edge
endpoint equals the new node count 2 — contradicting the claim that every
endpoint greater than the removed slot is decremented and stays below the
new count.  The shift loop `for c in id..self.nodes.len()` runs up to the
new length and so never rewrites endpoints equal to the old last slot. -/
theorem remove_shift_bug :
    (gShift.remove 1).nodes.length = 2
    ∧ ∃ e ∈ (gShift.remove 1).edges, (gShift.remove 1).nodes.length ≤ e.snd := by
  decide

/-- Claim C2 (counterexample): with the importance filter enabled (the
default: `DONT_SKIP` unset), the full finalization of `render_to` on the
scenario graph removes A, B and C as well (none is allowlisted), so the
surviving node list is empty — not `{A, B, C}` with A at slot 0. -/
theorem scenario_default_filter_cex :
    (scenarioGraph.render_to cfg0 false).map (fun p => p.1.nodes) = some [] := by
  decide

/-- Claim C2 (amended): with `DONT_SKIP` set (importance filter disabled),
finalizing the scenario graph in `render_to` yields exactly the nodes A, B,
C with A at slot 0, the edges A→B and B→C each once, and no D. -/
theorem scenario_finalize :
    (scenarioGraph.render_to cfg0 true).map (fun p => (p.1.nodes, p.1.edges))
      = some (scenarioSurvivors, [{ fst := 0, snd := 1 }, { fst := 1, snd := 2 }]) := by
  decide

/-- Claim C3 (code bug): on `gRender` (nodes `common`, `zzz`, `tree`, edges
`(0,1)` and `(0,2)`) with the importance filter enabled and a non-failing
sink, `render_to` panics (`none`): removing the unimportant `zzz` via
`remove(1)` leaves the dangling edge `(0, 2)`, and `Ed::label` then unwraps
`None` — contradicting the claim that `render_to` fails only if the sink
fails. -/
theorem render_to_filter_panics :
    gRender.render_to cfg0 false = none := by
  decide

/-- Claim C4 (counterexample): the claim's table sends (parent Optional,
child Dev) to the configured dev fragment, but `Ed::label` writes the
optional fragment for that pair. -/
theorem label_table_cex :
    edLabelKinds cfg0 DepKind.Optional DepKind.Dev
      ≠ claimedLabelTable cfg0 DepKind.Optional DepKind.Dev := by
  decide

/-- Claim C4 (amended): `Ed::label` realizes the corrected table
`amendedLabelTable`: with parent Build the child kind picks the fragment
(build/dev/optional); parent Optional always yields the optional fragment
and parent Dev always the dev fragment for non-Normal children; every
pairing involving Normal yields the empty label. -/
theorem label_table_amended (cfg : Config) (parent child : DepKind) :
    edLabelKinds cfg parent child = amendedLabelTable cfg parent child := by
  cases parent <;> cases child <;> rfl

/-- Claim C5 (counterexample): on the empty graph, `remove_orphans` panics
(`used[0] = true` indexes an empty vector), modelled as `none` — the claim's
"for every graph" fails. -/
theorem remove_orphans_empty_cex : gEmpty.remove_orphans = none := by
  decide

/-- Claim C5 (amended): for every graph with at least one node,
`remove_orphans` terminates with a result in which every node is slot 0 or
the destination of a surviving edge, no edge endpoint is out of range, and
re-running `remove_orphans` returns the result unchanged. -/
theorem remove_orphans_spec (g : DepGraph) (h : g.nodes ≠ []) :
    ∃ g', g.remove_orphans = some g'
      ∧ (∀ i, i < g'.nodes.length → i = 0 ∨ ∃ e ∈ g'.edges, e.snd = i)
      ∧ (∀ e ∈ g'.edges, e.fst < g'.nodes.length ∧ e.snd < g'.nodes.length)
      ∧ g'.remove_orphans = some g' := by
  have h0 : 0 < g.nodes.length := List.length_pos.mpr h
  have hinbR : edgesInBounds
      { g with edges := g.edges.filter (fun e =>
          decide (e.fst < g.nodes.length) && decide (e.snd < g.nodes.length)) } := by
    intro e he
    simp only [List.mem_filter, Bool.and_eq_true, decide_eq_true_eq] at he
    exact he.2
  obtain ⟨g', hrun, hpos, hinb', hpost, hfix⟩ :=
    removeOrphansLoop_spec (g.nodes.length + 1) _ hinbR h0 (Nat.le_succ _)
  refine ⟨g', hrun, hpost, hinb', ?_⟩
  show removeOrphansLoop (g'.nodes.length + 1)
    { g' with edges := g'.edges.filter (fun e =>
        decide (e.fst < g'.nodes.length) && decide (e.snd < g'.nodes.length)) } = some g'
  have hfe : g'.edges.filter (fun e =>
      decide (e.fst < g'.nodes.length) && decide (e.snd < g'.nodes.length)) = g'.edges := by
    apply List.filter_eq_self.mpr
    intro e he
    have hb := hinb' e he
    simp [hb.1, hb.2]
  rw [hfe]
  exact hfix

/-- Witness for C5's theorem at the one-node graph `gOrphW`. -/
theorem remove_orphans_spec_witness :
    ∃ g', gOrphW.remove_orphans = some g'
      ∧ (∀ i, i < g'.nodes.length → i = 0 ∨ ∃ e ∈ g'.edges, e.snd = i)
      ∧ (∀ e ∈ g'.edges, e.fst < g'.nodes.length ∧ e.snd < g'.nodes.length)
      ∧ g'.remove_orphans = some g' :=
  remove_orphans_spec gOrphW (by decide)

/-- Claim C6: when `(name, ver)` is present, `set_root` returns `true`,
afterwards slot 0 holds a node matching `(name, ver)`, the multiset of
edges viewed as structural relationships between nodes (not slot numbers)
is unchanged, and if the pair is already at slot 0 the call is a no-op
success (it returns `true` and leaves the graph untouched). -/
theorem set_root_success (g : DepGraph) (name ver : String)
    (h : (g.find name ver).isSome = true) :
    (g.set_root name ver).1 = true
    ∧ (∃ d, (g.set_root name ver).2.nodes[0]? = some d ∧ d.name = name ∧ d.ver = ver)
    ∧ ((structuralEdges (g.set_root name ver).2 :
          Multiset (Option ResolvedDep × Option ResolvedDep))
        = (structuralEdges g : Multiset (Option ResolvedDep × Option ResolvedDep)))
    ∧ (g.find name ver = some 0 → g.set_root name ver = (true, g)) := by
  cases hf : g.find name ver with
  | none => rw [hf] at h; cases h
  | some r =>
    have hff : findFrom g.nodes 0 name ver = some r := hf
    obtain ⟨-, d, hd, hdn, hdv⟩ := findFrom_some hff
    rw [Nat.sub_zero] at hd
    have hrlt : r < g.nodes.length := (List.getElem?_eq_some.mp hd).1
    by_cases hr : r = 0
    · subst hr
      have hsr : g.set_root name ver = (true, g) := by
        simp [DepGraph.set_root, hf]
      rw [hsr]
      exact ⟨rfl, ⟨d, hd, hdn, hdv⟩, rfl, fun _ => rfl⟩
    · have hsr : g.set_root name ver = (true,
          { nodes := listSwap g.nodes 0 r,
            edges := g.edges.map (fun e =>
              { fst := swapIdx r e.fst, snd := swapIdx r e.snd }) }) := by
        simp only [DepGraph.set_root, hf]
        rw [if_neg hr]
      rw [hsr]
      dsimp only
      refine ⟨rfl, ⟨d, ?_, hdn, hdv⟩, ?_, ?hnoop⟩
      case hnoop =>
        intro h0
        exact absurd (Option.some.inj h0) hr
      · have hswap := listSwap_get_swapIdx hrlt hr r
        have hsw : swapIdx r r = 0 := by rw [swapIdx, if_neg hr, if_pos rfl]
        rw [hsw] at hswap
        show (listSwap g.nodes 0 r)[0]? = some d
        rw [hswap]
        exact hd
      · have hlist : structuralEdges
            ({ nodes := listSwap g.nodes 0 r,
               edges := g.edges.map (fun e =>
                 { fst := swapIdx r e.fst, snd := swapIdx r e.snd }) } : DepGraph)
            = structuralEdges g := by
          rw [structuralEdges, structuralEdges]
          show (g.edges.map _).map _ = _
          rw [List.map_map]
          apply List.map_congr_left
          intro e _
          show (_, _) = (_, _)
          rw [get_eq_getElem, get_eq_getElem, get_eq_getElem, get_eq_getElem]
          show ((listSwap g.nodes 0 r)[swapIdx r e.fst]?,
                (listSwap g.nodes 0 r)[swapIdx r e.snd]?) = _
          rw [listSwap_get_swapIdx hrlt hr e.fst, listSwap_get_swapIdx hrlt hr e.snd]
        rw [hlist]

/-- Witness for C6's theorem at the two-node graph `gRootW`. -/
theorem set_root_success_witness :
    (gRootW.set_root "b" "2").1 = true
    ∧ (∃ d, (gRootW.set_root "b" "2").2.nodes[0]? = some d ∧ d.name = "b" ∧ d.ver = "2")
    ∧ ((structuralEdges (gRootW.set_root "b" "2").2 :
          Multiset (Option ResolvedDep × Option ResolvedDep))
        = (structuralEdges gRootW : Multiset (Option ResolvedDep × Option ResolvedDep)))
    ∧ (gRootW.find "b" "2" = some 0 → gRootW.set_root "b" "2" = (true, gRootW)) :=
  set_root_success gRootW "b" "2" (by decide)

/-- Claim C7: the importance filter exempts no node — the surviving node
list is exactly the original one filtered by importance (so an unimportant
slot 0 is removed too) — and on the one-unimportant-node graph `gNoRoot`
the rendered output contains no node declaration at all, only the header
and footer lines. -/
theorem importance_filter_no_exemptions :
    (∀ g : DepGraph, (g.importance_filter).nodes
        = g.nodes.filter (fun d => !(unimportant d)))
    ∧ (gNoRoot.render_to cfg0 false).map (fun p => (p.1.nodes, p.2))
        = some ([], "digraph dependencies \x7b\n\x7d\n") :=
  ⟨importance_filter_nodes, by decide⟩

/-- Claim C8: when `(name, ver)` is absent, `set_root` returns `false` and
leaves the graph completely unchanged. -/
theorem set_root_absent (g : DepGraph) (name ver : String)
    (h : g.find name ver = none) :
    g.set_root name ver = (false, g) := by
  simp only [DepGraph.set_root, h]

/-- Witness for C8's theorem at the empty graph. -/
theorem set_root_absent_witness : gEmpty.set_root "x" "1" = (false, gEmpty) :=
  set_root_absent gEmpty "x" "1" (by decide)

/-- Claim C9: `remove_self_pointing` has the same net effect as deleting
every edge with equal endpoints (a plain filter): afterwards no edge has
equal endpoints, all other edges survive unchanged, and re-applying it is a
no-op. -/
theorem remove_self_pointing_spec (g : DepGraph) :
    (g.remove_self_pointing).edges = g.edges.filter (fun e => !(e.fst == e.snd))
    ∧ (∀ e ∈ (g.remove_self_pointing).edges, e.fst ≠ e.snd)
    ∧ (g.remove_self_pointing).remove_self_pointing = g.remove_self_pointing := by
  have h1 : (g.remove_self_pointing).edges
      = g.edges.filter (fun e => !(e.fst == e.snd)) := by
    show selfPointingLoop (g.edges.length + 1) g.edges = _
    exact selfPointingLoop_eq_filter (Nat.lt_succ_self _)
  have hmem : ∀ e ∈ (g.remove_self_pointing).edges, e.fst ≠ e.snd := by
    intro e he
    rw [h1] at he
    have := (List.mem_filter.mp he).2
    simpa using this
  refine ⟨h1, hmem, ?_⟩
  show ({ g.remove_self_pointing with
      edges := selfPointingLoop ((g.remove_self_pointing).edges.length + 1)
        (g.remove_self_pointing).edges } : DepGraph) = g.remove_self_pointing
  rw [selfPointingLoop_eq_filter (Nat.lt_succ_self _)]
  have hall : ∀ e ∈ (g.remove_self_pointing).edges, (!(e.fst == e.snd)) = true := by
    intro e he
    have := hmem e he
    simp [this]
  rw [List.filter_eq_self.mpr hall]

/-- Claim C10: calling `find_or_add` twice with the same arguments returns
the same slot both times, and the node count grows by at most one across
the two calls. -/
theorem find_or_add_idempotent (g : DepGraph) (name ver : String) :
    ((g.find_or_add name ver).2.find_or_add name ver).1 = (g.find_or_add name ver).1
    ∧ ((g.find_or_add name ver).2.find_or_add name ver).2.nodes.length
        ≤ g.nodes.length + 1 := by
  cases hf : g.find name ver with
  | some i =>
    have h1 : g.find_or_add name ver = (i, g) := by
      simp only [DepGraph.find_or_add, hf]
    rw [h1]
    constructor
    · show (g.find_or_add name ver).1 = i
      rw [h1]
    · show (g.find_or_add name ver).2.nodes.length ≤ g.nodes.length + 1
      rw [h1]
      show g.nodes.length ≤ g.nodes.length + 1
      omega
  | none =>
    have hff : findFrom g.nodes 0 name ver = none := hf
    have h1 : g.find_or_add name ver
        = (g.nodes.length, { g with nodes := g.nodes ++ [ResolvedDep.new name ver] }) := by
      simp only [DepGraph.find_or_add, hf]
    have h2 : ({ g with nodes := g.nodes ++ [ResolvedDep.new name ver] } : DepGraph).find
        name ver = some g.nodes.length := by
      show findFrom (g.nodes ++ [ResolvedDep.new name ver]) 0 name ver = _
      rw [findFrom_append_new hff, Nat.zero_add]
    have h3 : ({ g with nodes := g.nodes ++ [ResolvedDep.new name ver] } : DepGraph).find_or_add
        name ver
        = (g.nodes.length, { g with nodes := g.nodes ++ [ResolvedDep.new name ver] }) := by
      simp only [DepGraph.find_or_add, h2]
    rw [h1]
    constructor
    · show (({ g with nodes := g.nodes ++ [ResolvedDep.new name ver] } : DepGraph).find_or_add
          name ver).1 = g.nodes.length
      rw [h3]
    · show (({ g with nodes := g.nodes ++ [ResolvedDep.new name ver] } : DepGraph).find_or_add
          name ver).2.nodes.length ≤ g.nodes.length + 1
      rw [h3]
      show (g.nodes ++ [ResolvedDep.new name ver]).length ≤ g.nodes.length + 1
      simp [List.length_append]

end CargoGraph
